import Mathlib

set_option maxRecDepth 100000

/-!
# Verification of the ADF → plain-text converter

Shallow embedding of `src/mcp_atlassian/models/jira/adf.py` (module
`adf.py` below), which converts Atlassian Document Format trees to
plain/markdown text, together with theorems settling the frozen claims
about its specification.

Python values are modelled as follows: `str` is `String` (with the string
primitives the source uses re-implemented structurally over `String.data`
so that the kernel can evaluate them), `None` is `Option.none` / a
dedicated constructor, dicts that the code reads only through fixed keys
become structures with one optional field per key read, and the possibility
of an uncaught exception is modelled by returning `Except PyExc`.
-/

/-! ## Python string primitives

The source uses `text.split("\n")`, `"\n" not in s`, `"\n".join(parts)`,
f-string concatenation, `int(s)` and `str(x)`.  They are modelled here by
structurally recursive functions over `String.data`. -/

/-- Split a character list at every occurrence of `sep`, accumulator style;
models the chunking done by Python `str.split` with a one-character
separator (every occurrence splits, empty chunks are kept). -/
def strSplitAux (sep : Char) : List Char → List Char → List (List Char)
  | [], acc => [acc.reverse]
  | c :: cs, acc =>
    if c = sep then acc.reverse :: strSplitAux sep cs []
    else strSplitAux sep cs (c :: acc)

/-- Python `s.split(sep)` for a one-character separator `sep`:
`"".split` gives `[""]`, every occurrence of the separator splits, and
empty chunks are kept. -/
def pySplitChar (s : String) (sep : Char) : List String :=
  (strSplitAux sep s.data []).map List.asString

/-- Python `c in s` for a one-character needle: substring (here: character)
containment. -/
def pyContains (s : String) (c : Char) : Bool :=
  s.data.contains c

/-- Python `sep.join(xs)`. -/
def pyJoin (sep : String) : List String → String
  | [] => ""
  | [x] => x
  | x :: y :: xs => x ++ sep ++ pyJoin sep (y :: xs)

/-- Python truthiness-based `x or dflt` for an optional string `x`:
`None` and `""` are falsy. -/
def pyOr (x : Option String) (dflt : String) : String :=
  match x with
  | some t => if t = "" then dflt else t
  | none => dflt

/-- The whitespace characters stripped by Python `int(str)` (the ASCII
ones; exotic Unicode space characters are not modelled). -/
def isPyWhitespace (c : Char) : Bool :=
  c = ' ' || c = '\t' || c = '\n' || c = '\r' || c = '\x0b' || c = '\x0c'

/-- Value of a list of ASCII decimal digit characters. -/
def digitsToNat (ds : List Char) : Nat :=
  ds.foldl (fun a c => 10 * a + (c.toNat - 48)) 0

/-- Python built-in `int()` applied to a `str`: optional surrounding
whitespace, an optional sign, then ASCII decimal digits; `none` models the
`ValueError` raised otherwise.  (Underscore digit separators and non-ASCII
digits accepted by CPython are not modelled; no claim depends on them.) -/
def pyIntOfString (s : String) : Option Int :=
  let core := ((s.data.dropWhile isPyWhitespace).reverse.dropWhile isPyWhitespace).reverse
  match core with
  | [] => none
  | c :: rest =>
    let signed : Int × List Char :=
      if c = '-' then (-1, rest)
      else if c = '+' then (1, rest)
      else (1, c :: rest)
    match signed with
    | (sign, digits) =>
      if digits ≠ [] ∧ digits.all Char.isDigit then
        some (sign * (digitsToNat digits : Int))
      else none

/-! ## UTC calendar arithmetic

Models `datetime.fromtimestamp(seconds, tz=timezone.utc).strftime("%Y-%m-%d")`
with exact integer arithmetic.  For a millisecond count `n` whose instant
lies in the `datetime`-supported years 1..9999, the float detour
`int(timestamp) / 1000` taken by the source is exact enough that the
rendered civil date is that of day `⌊n / 86400000⌋` of the proleptic
Gregorian calendar (the quotient is below 2^53, so the division error is
under 10⁻⁴ s while distinct instants are ≥ 10⁻³ s from a day boundary).
Two failure modes raise an `OverflowError` that the source does not
catch: the `int(timestamp) / 1000` division overflowing the float range,
and `fromtimestamp` rejecting a finite float outside the 64-bit `time_t`
range; in between, out-of-range instants raise `ValueError` or `OSError`,
which the source catches and degrades to `str(timestamp)`. -/

/-- Civil (proleptic Gregorian) date `(year, month, day)` of a day count
relative to 1970-01-01. -/
def civilFromDays (z0 : Int) : Int × Nat × Nat :=
  let z : Int := z0 + 719468
  let era : Int := Int.fdiv z 146097
  let doe : Nat := (z - era * 146097).toNat
  let yoe : Nat := (doe - doe / 1460 + doe / 36524 - doe / 146096) / 365
  let y : Int := (yoe : Int) + era * 400
  let doy : Nat := doe - (365 * yoe + yoe / 4 - yoe / 100)
  let mp : Nat := (5 * doy + 2) / 153
  let d : Nat := doy - (153 * mp + 2) / 5 + 1
  let m : Nat := if mp < 10 then mp + 3 else mp - 9
  (if m ≤ 2 then y + 1 else y, m, d)

/-- Zero-pad a number to two digits, as C `strftime` does for `%m`/`%d`. -/
def pad2 (n : Nat) : String :=
  if n < 10 then "0" ++ toString n else toString n

/-- Rendering of `strftime("%Y-%m-%d")` on glibc: unpadded year with
century, two-digit month and day. -/
def formatYmd (y : Int) (m d : Nat) : String :=
  toString y ++ "-" ++ pad2 m ++ "-" ++ pad2 d

/-- Smallest `|n|` for which Python `n / 1000` (true division of ints,
correctly rounded to binary64) overflows to infinity and hence raises an
`OverflowError`: the quotient rounds to ≥ 2^1024 exactly when
`|n| / 1000 ≥ 2^1024 − 2^970` (the round-to-nearest-even midpoint above
the largest finite float). -/
def overflowThresholdNat : Nat := 1000 * (2 ^ 1024 - 2 ^ 970)

/-- Smallest positive `n` (milliseconds) for which
`datetime.fromtimestamp(n / 1000, tz=timezone.utc)` raises
`OverflowError: timestamp out of range for platform time_t` (uncaught —
it is missing from the `except` tuple): the conversion raises exactly
when the binary64 seconds value lies outside `[-2^63, 2^63)` (64-bit
`time_t`), and `n / 1000` rounds to ≥ 2^63 exactly when
`n ≥ 1000·(2^63 − 2^9)` — the ulp just below 2^63 is 2^10 and the
midpoint tie rounds to the even 2^63.  Verified against CPython 3.11 on
x86-64 Linux. -/
def timeTOverflowPosMs : Int := 1000 * (2 ^ 63 - 2 ^ 9)

/-- Largest negative `n` (milliseconds) still within the `time_t` range
of `datetime.fromtimestamp`: the conversion raises the uncaught
`OverflowError` exactly when `n < -1000·(2^63 + 2^10)` — the ulp just
above 2^63 is 2^11, so the first float below −2^63 is −(2^63 + 2^11),
and the midpoint tie at −(2^63 + 2^10) rounds to the even −2^63, which
still fits.  Verified against CPython 3.11 on x86-64 Linux. -/
def timeTOverflowNegMs : Int := -(1000 * (2 ^ 63 + 2 ^ 10))

/-! ## Data model

Shapes of the untyped input tree, restricted to the keys the source reads
(`type`, `text`, `marks`, `attrs`, `content`; mark keys `type`, `attrs`;
attr keys `href`, `type`, `text`, `id`, `shortName`, `timestamp`, `url`,
`data`; card-data keys `url`, `name`).  A missing key is `none`. -/

/-- Attrs of a `link` or `subsup` mark, as read by `_apply_marks`. -/
structure MarkAttrs where
  href : Option String := none
  type : Option String := none
deriving DecidableEq

/-- The empty dict default of `mark.get("attrs", {})`. -/
def MarkAttrs.empty : MarkAttrs := {}

/-- One ADF mark: a dict read through `get("type")` and `get("attrs")`. -/
structure Mark where
  type : Option String := none
  attrs : Option MarkAttrs := none
deriving DecidableEq

/-- A `date` node's `attrs.timestamp` value: an integer or a string. -/
inductive TsVal where
  | int (n : Int)
  | str (s : String)
deriving DecidableEq

/-- Python truthiness of a timestamp value (`if timestamp:`):
`0` and `""` are falsy. -/
def tsTruthy : TsVal → Bool
  | .int n => n ≠ 0
  | .str s => s ≠ ""

/-- Python `str(timestamp)`. -/
def pyStrOfTs : TsVal → String
  | .int n => toString n
  | .str s => s

/-- Python `int(timestamp)`; `none` models a caught `ValueError`. -/
def pyIntOfTs : TsVal → Option Int
  | .int n => some n
  | .str s => pyIntOfString s

/-- Value of `attrs.data` on an `inlineCard` node, as read by `adf_to_text`. -/
structure CardData where
  url : Option String := none
  name : Option String := none
deriving DecidableEq

/-- The empty dict default of `attrs.get("data", {})`. -/
def CardData.empty : CardData := {}

/-- A node's `attrs` dict, restricted to the keys the source reads. -/
structure Attrs where
  text : Option String := none
  id : Option String := none
  shortName : Option String := none
  timestamp : Option TsVal := none
  url : Option String := none
  data : Option CardData := none
deriving DecidableEq

/-- The empty dict default of `adf_content.get("attrs", {})`. -/
def Attrs.empty : Attrs := {}

/-- An ADF input value: `None`, a plain string, a content list, or a node
dict with the five optional keys the source reads. -/
inductive ADF where
  | null
  | str (s : String)
  | list (items : List ADF)
  | node (type : Option String) (text : Option String)
         (marks : Option (List Mark)) (attrs : Option Attrs)
         (content : Option (List ADF))

/-- The uncaught exception the converter can raise on a `date` node with
an astronomically large numeric timestamp: `OverflowError` from
`int(timestamp) / 1000` is absent from the
`except (ValueError, OSError, TypeError)` tuple. -/
inductive PyExc where
  | overflowError
deriving DecidableEq

instance : DecidableEq (Except PyExc (Option String)) := fun x y =>
  match x, y with
  | .error a, .error b =>
    match decEq a b with
    | isTrue h => isTrue (h ▸ rfl)
    | isFalse h => isFalse fun hh => h (Except.error.inj hh)
  | .ok a, .ok b =>
    match decEq a b with
    | isTrue h => isTrue (h ▸ rfl)
    | isFalse h => isFalse fun hh => h (Except.ok.inj hh)
  | .error _, .ok _ => isFalse fun hh => Except.noConfusion hh
  | .ok _, .error _ => isFalse fun hh => Except.noConfusion hh

/-! ## The converter (`adf.py`) -/

/-- Model of `_has_code_mark(node)`: `node` is a dict of type `"text"`
one of whose marks has type `"code"` (the `isinstance(item, dict)` guard
at the call site is folded in: non-dict values have no code mark). -/
def _has_code_mark : ADF → Bool
  | .node ty _ marks _ _ =>
    ty = some "text" && (marks.getD []).any (fun m => m.type = some "code")
  | _ => false

/-- The body of the mark loop in `_apply_marks`: wrap `text` according to
one mark's `type`, leaving it unchanged for unrecognized types. -/
def _apply_one_mark (text : String) (mark : Mark) : String :=
  if mark.type = some "code" then "`" ++ text ++ "`"
  else if mark.type = some "strong" then "**" ++ text ++ "**"
  else if mark.type = some "em" then "*" ++ text ++ "*"
  else if mark.type = some "strike" then "~~" ++ text ++ "~~"
  else if mark.type = some "underline" then "<u>" ++ text ++ "</u>"
  else if mark.type = some "link" then
    let attrs := mark.attrs.getD MarkAttrs.empty
    let href := attrs.href.getD ""
    if href ≠ "" then "[" ++ text ++ "](" ++ href ++ ")" else text
  else if mark.type = some "subsup" then
    let attrs := mark.attrs.getD MarkAttrs.empty
    if attrs.type = some "sub" then "<sub>" ++ text ++ "</sub>"
    else if attrs.type = some "sup" then "<sup>" ++ text ++ "</sup>"
    else text
  else text

/-- Model of `_apply_marks(text, marks)`: early return for an empty mark
list, then the marks wrap the accumulated text in list order. -/
def _apply_marks (text : String) (marks : List Mark) : String :=
  match marks with
  | [] => text
  | _ => marks.foldl _apply_one_mark text

/-- Model of `_get_text_without_code_mark(node)`: the node's text with
every mark except `code` applied (non-dict values, on which the source
would never call this, yield the default `""`). -/
def _get_text_without_code_mark : ADF → String
  | .node _ text marks _ _ =>
    let t := text.getD ""
    let non_code_marks := (marks.getD []).filter (fun m => ¬ m.type = some "code")
    match non_code_marks with
    | [] => t
    | _ => _apply_marks t non_code_marks
  | _ => ""

/-- Model of `flush_code_buffer()` from `_process_content_list`, with the
mutated locals passed explicitly: appends nothing for an empty buffer, an inline
code span for a single newline-free line, otherwise a fenced block of the
buffered lines; the cleared buffer is the caller's `[]`. -/
def flush_code_buffer (result_parts code_buffer : List String) : List String :=
  match code_buffer with
  | [] => result_parts
  | [line] =>
    if pyContains line '\n' then
      result_parts ++ ["```\n" ++ pyJoin "\n" code_buffer ++ "\n```"]
    else
      result_parts ++ ["`" ++ line ++ "`"]
  | _ => result_parts ++ ["```\n" ++ pyJoin "\n" code_buffer ++ "\n```"]

mutual

/-- Model of `adf_to_text(adf_content)`: the top-level dispatcher.  A Python `str`
result is `.ok (some s)`, a Python `None` result is `.ok none`, and an
uncaught exception is `.error`.  Where the source recursively calls
`adf_to_text` on a `content` list, the list dispatch
(`if not items: None else _process_content_list`) is inlined so that the
recursion is structural; `adf_to_text_list_eq` records the equality. -/
def adf_to_text : ADF → Except PyExc (Option String)
  | .null => .ok none
  | .str s => .ok (some s)
  | .list items =>
    match items with
    | [] => .ok none
    | x :: xs => processItems (x :: xs) [] []
  | .node ty text marks attrs content =>
    if ty = some "text" then
      let t := text.getD ""
      match marks.getD [] with
      | [] => .ok (some t)
      | m :: ms => .ok (some (_apply_marks t (m :: ms)))
    else if ty = some "hardBreak" then .ok (some "\n")
    else if ty = some "mention" then
      let a := attrs.getD Attrs.empty
      .ok (some (pyOr a.text ("@" ++ a.id.getD "unknown")))
    else if ty = some "emoji" then
      let a := attrs.getD Attrs.empty
      .ok (some (pyOr a.text (a.shortName.getD "")))
    else if ty = some "date" then
      let a := attrs.getD Attrs.empty
      match a.timestamp with
      | none => .ok (some "")
      | some ts =>
        if tsTruthy ts then
          match pyIntOfTs ts with
          | none => .ok (some (pyStrOfTs ts))
          | some n =>
            if overflowThresholdNat ≤ n.natAbs then
              .error PyExc.overflowError
            else if timeTOverflowPosMs ≤ n ∨ n < timeTOverflowNegMs then
              .error PyExc.overflowError
            else
              match civilFromDays (Int.fdiv n 86400000) with
              | (y, m, d) =>
                if 1 ≤ y ∧ y ≤ 9999 then .ok (some (formatYmd y m d))
                else .ok (some (pyStrOfTs ts))
        else .ok (some "")
    else if ty = some "status" then
      let a := attrs.getD Attrs.empty
      .ok (some ("[" ++ a.text.getD "" ++ "]"))
    else if ty = some "inlineCard" then
      let a := attrs.getD Attrs.empty
      match a.url with
      | some u =>
        if u ≠ "" then .ok (some u)
        else
          let data := a.data.getD CardData.empty
          .ok (some (pyOr data.url (data.name.getD "")))
      | none =>
        let data := a.data.getD CardData.empty
        .ok (some (pyOr data.url (data.name.getD "")))
    else if ty = some "codeBlock" then
      match content with
      | some (x :: xs) =>
        match processItems (x :: xs) [] [] with
        | .error e => .error e
        | .ok r => .ok (some ("```\n" ++ pyOr r "" ++ "\n```"))
      | _ => .ok (some ("```\n" ++ "" ++ "\n```"))
    else
      match content with
      | some (x :: xs) => processItems (x :: xs) [] []
      | _ => .ok none

/-- The loop of `_process_content_list(items)` with the two mutated locals
`result_parts` and `code_buffer` passed explicitly, including the final
flush and the `"\n".join(result_parts) if result_parts else None` return. -/
def processItems : List ADF → List String → List String → Except PyExc (Option String)
  | [], result_parts, code_buffer =>
    match flush_code_buffer result_parts code_buffer with
    | [] => .ok none
    | p :: ps => .ok (some (pyJoin "\n" (p :: ps)))
  | item :: rest, result_parts, code_buffer =>
    if _has_code_mark item then
      processItems rest result_parts
        (code_buffer ++ pySplitChar (_get_text_without_code_mark item) '\n')
    else
      let parts := flush_code_buffer result_parts code_buffer
      match adf_to_text item with
      | .error e => .error e
      | .ok (some t) =>
        if t ≠ "" then processItems rest (parts ++ [t]) []
        else processItems rest parts []
      | .ok none => processItems rest parts []

end

/-- Model of `_process_content_list(items)`: `None` for an empty list,
otherwise the accumulating loop started with empty locals. -/
def _process_content_list (items : List ADF) : Except PyExc (Option String) :=
  match items with
  | [] => .ok none
  | x :: xs => processItems (x :: xs) [] []

/-- The dispatcher sends a list input to `_process_content_list`. -/
theorem adf_to_text_list_eq (items : List ADF) :
    adf_to_text (.list items) = _process_content_list items := by
  cases items <;> rfl

/-! ## Facts about the string primitives -/

theorem asString_data (s : String) : s.data.asString = s := rfl

theorem asString_append (a b : List Char) : (a ++ b).asString = a.asString ++ b.asString := rfl

theorem strAppend_assoc : ∀ x y z : String, (x ++ y) ++ z = x ++ (y ++ z)
  | ⟨a⟩, ⟨b⟩, ⟨c⟩ => congrArg String.mk (List.append_assoc a b c)

theorem strSplitAux_ne_nil (sep : Char) (cs acc : List Char) : strSplitAux sep cs acc ≠ [] := by
  induction cs generalizing acc with
  | nil => simp [strSplitAux]
  | cons c cs ih =>
    simp only [strSplitAux]
    split
    · simp
    · exact ih _

theorem strSplitAux_no_sep (sep : Char) (cs acc : List Char)
    (h : cs.contains sep = false) : strSplitAux sep cs acc = [acc.reverse ++ cs] := by
  induction cs generalizing acc with
  | nil => simp [strSplitAux]
  | cons c cs ih =>
    simp only [List.contains_cons, Bool.or_eq_false_iff, beq_eq_false_iff_ne] at h
    simp only [strSplitAux, if_neg (Ne.symm h.1)]
    rw [ih _ h.2]
    simp

/-- Splitting a string that does not contain the separator gives back the
one-element list holding the string, like Python `split`. -/
theorem pySplitChar_of_not_contains (s : String) (sep : Char)
    (h : pyContains s sep = false) : pySplitChar s sep = [s] := by
  unfold pySplitChar
  rw [strSplitAux_no_sep]
  · simp [asString_data]
  · simpa [pyContains] using h

theorem strSplitAux_length_of_contains (sep : Char) (cs acc : List Char)
    (h : cs.contains sep = true) : 2 ≤ (strSplitAux sep cs acc).length := by
  induction cs generalizing acc with
  | nil => simp at h
  | cons c cs ih =>
    by_cases hc : c = sep
    · subst hc
      simp only [strSplitAux, if_pos rfl]
      have hne := strSplitAux_ne_nil c cs []
      cases hs : strSplitAux c cs [] with
      | nil => exact absurd hs hne
      | cons a as => simp [hs]
    · simp only [strSplitAux, if_neg hc]
      apply ih
      simp only [List.contains_cons, Bool.or_eq_true, beq_iff_eq] at h
      rcases h with h | h
      · exact absurd h.symm hc
      · exact h

theorem pyJoin_strSplitAux (sep : Char) (cs acc : List Char) :
    pyJoin ([sep].asString) ((strSplitAux sep cs acc).map List.asString) =
      (acc.reverse ++ cs).asString := by
  induction cs generalizing acc with
  | nil => simp [strSplitAux, pyJoin]
  | cons c cs ih =>
    by_cases hc : c = sep
    · subst hc
      simp only [strSplitAux, if_pos rfl]
      have hne := strSplitAux_ne_nil c cs []
      cases hs : strSplitAux c cs [] with
      | nil => exact absurd hs hne
      | cons a as =>
        have ihx := ih ([] : List Char)
        rw [hs] at ihx
        simp only [List.map_cons, List.reverse_nil, List.nil_append] at ihx
        simp only [List.map_cons, pyJoin, ihx]
        rw [show c :: cs = [c] ++ cs from rfl, ← List.append_assoc,
            asString_append, asString_append, strAppend_assoc]
    · simp only [strSplitAux, if_neg hc]
      rw [ih (c :: acc)]
      exact congrArg List.asString (by simp)

/-- Joining the pieces of a Python `split` with the separator restores the
original string. -/
theorem pyJoin_pySplitChar (s : String) (sep : Char) :
    pyJoin ([sep].asString) (pySplitChar s sep) = s := by
  unfold pySplitChar
  rw [pyJoin_strSplitAux]
  simp [asString_data]

/-- Splitting a string that contains the separator yields at least two
pieces. -/
theorem pySplitChar_length_of_contains (s : String) (sep : Char)
    (h : pyContains s sep = true) : 2 ≤ (pySplitChar s sep).length := by
  unfold pySplitChar
  rw [List.length_map]
  exact strSplitAux_length_of_contains sep s.data [] (by simpa [pyContains] using h)

/-! ## Node shorthands used by the claims -/

/-- A `{type: "code"}` mark. -/
def codeMark : Mark := { type := some "code" }

/-- A `{type: "strong"}` mark. -/
def strongMark : Mark := { type := some "strong" }

/-- A `{type: "em"}` mark. -/
def emMark : Mark := { type := some "em" }

/-- Node `{type: "text", text: t}` with no marks (`plain(t)` in the
claims). -/
def plainTextNode (t : String) : ADF :=
  .node (some "text") (some t) none none none

/-- Node `{type: "text", text: t, marks: [{type: "code"}]}` (`code(t)`
in the claims). -/
def codeTextNode (t : String) : ADF :=
  .node (some "text") (some t) (some [codeMark]) none none

/-- Node `{type: "date", attrs: {timestamp: ts}}`, or attrs without the
`timestamp` key when `ts` is `none`. -/
def dateNodeTs (ts : Option TsVal) : ADF :=
  .node (some "date") none none (some { timestamp := ts }) none
theorem pyJoin_single (sep x : String) : pyJoin sep [x] = x := rfl

theorem processItems_cons_code (item : ADF) (rest : List ADF) (parts buf : List String)
    (h : _has_code_mark item = true) :
    processItems (item :: rest) parts buf =
      processItems rest parts (buf ++ pySplitChar (_get_text_without_code_mark item) '\n') := by
  simp [processItems, h]

theorem has_code_mark_codeTextNode (t : String) : _has_code_mark (codeTextNode t) = true := rfl

theorem text_without_code_mark_codeTextNode (t : String) :
    _get_text_without_code_mark (codeTextNode t) = t := rfl

/-- C7: `convert` is the identity on the two base cases: absent input gives
an absent result and a plain string is returned unchanged. -/
theorem claim_C7_base_cases :
    adf_to_text .null = .ok none ∧ ∀ s : String, adf_to_text (.str s) = .ok (some s) :=
  ⟨rfl, fun _ => rfl⟩

/-- C10: a code-marked text node with empty text still reaches the code
buffer: the singleton sequence renders as the empty inline code span
"``", not absent, while the singleton empty plain run renders absent. -/
theorem claim_C10_empty_code_run :
    adf_to_text (.list [codeTextNode ""]) = .ok (some "``") ∧
    adf_to_text (.list [plainTextNode ""]) = .ok none := by
  constructor <;> decide

/-- C2 as stated is false: a code-marked text node whose text contains a
newline, passed directly (as a dict, not inside a sequence), is wrapped in
single backticks by `_apply_marks`, not rendered as a fenced block. -/
theorem claim_C2_counterexample :
    adf_to_text (codeTextNode "a\nb") = .ok (some "`a\nb`") ∧
    (Except.ok (some "`a\nb`") : Except PyExc (Option String)) ≠ .ok (some "```\na\nb\n```") := by
  constructor <;> decide

/-- C2 amended: passed directly, a code-marked text node is always wrapped
in single backticks (the code mark is applied in mark order like any other
mark, never stripped); the inline/fenced dichotomy with the code mark
stripped before other marks holds when the node is processed as part of a
content list: a singleton list renders inline when the (code-stripped,
otherwise marked) text has no newline and as a fenced block holding
exactly the text's lines otherwise. -/
theorem claim_C2_amended :
    (∀ T : String, adf_to_text (codeTextNode T) = .ok (some ("`" ++ T ++ "`"))) ∧
    (∀ T : String, pyContains T '\n' = false →
      adf_to_text (.list [codeTextNode T]) = .ok (some ("`" ++ T ++ "`"))) ∧
    (∀ T : String, pyContains T '\n' = true →
      adf_to_text (.list [codeTextNode T]) = .ok (some ("```\n" ++ T ++ "\n```"))) ∧
    adf_to_text (.node (some "text") (some "x") (some [codeMark, strongMark]) none none) =
      .ok (some "**`x`**") ∧
    adf_to_text (.list [.node (some "text") (some "x") (some [codeMark, strongMark]) none none]) =
      .ok (some "`**x**`") := by
  refine ⟨fun T => rfl, fun T h => ?_, fun T h => ?_, by decide, by decide⟩
  · show processItems [codeTextNode T] [] [] = _
    rw [processItems_cons_code _ _ _ _ (has_code_mark_codeTextNode T),
        text_without_code_mark_codeTextNode, pySplitChar_of_not_contains T '\n' h]
    simp [processItems, flush_code_buffer, h, pyJoin_single]
  · show processItems [codeTextNode T] [] [] = _
    rw [processItems_cons_code _ _ _ _ (has_code_mark_codeTextNode T),
        text_without_code_mark_codeTextNode]
    have hlen := pySplitChar_length_of_contains T '\n' h
    have hjoin : pyJoin "\n" (pySplitChar T '\n') = T := pyJoin_pySplitChar T '\n'
    rcases hsp : pySplitChar T '\n' with _ | ⟨a, _ | ⟨b, bs⟩⟩
    · rw [hsp] at hlen; simp at hlen
    · rw [hsp] at hlen; simp at hlen
    · rw [hsp] at hjoin
      simp [processItems, flush_code_buffer, pyJoin_single, hjoin]

/-- C2 amended, witnessed at concrete inputs. -/
theorem claim_C2_amended_witness :
    adf_to_text (.list [codeTextNode "ab"]) = .ok (some "`ab`") ∧
    adf_to_text (.list [codeTextNode "a\nb"]) = .ok (some "```\na\nb\n```") :=
  ⟨claim_C2_amended.2.1 "ab" (by decide), claim_C2_amended.2.2.1 "a\nb" (by decide)⟩
/-- C3 as stated is false at timestamp 0: `if timestamp:` treats the
integer 0 as falsy, so the code returns the empty string instead of
formatting the epoch instant 1970-01-01. -/
theorem claim_C3_counterexample :
    adf_to_text (dateNodeTs (some (.int 0))) = .ok (some "") ∧
    (Except.ok (some "") : Except PyExc (Option String)) ≠ .ok (some "1970-01-01") := by
  constructor <;> decide

/-- C3 amended: for a truthy timestamp (nonzero integer, or nonempty
string) whose integer value lies strictly inside the `time_t` window
`[-1000·(2^63 + 2^10), 1000·(2^63 − 2^9))` of milliseconds, the node
renders the UTC civil date `YYYY-MM-DD` of the millisecond instant when
its year lies in 1..9999, and falls back to `str(timestamp)` on any
caught parse failure (non-numeric string, or instant out of the datetime
year range); timestamp 0, "" or absent renders as the empty string (not
as a formatted date); truthy numeric timestamps outside the `time_t`
window — including those whose division by 1000 overflows the float
range — raise an uncaught `OverflowError` instead of degrading. -/
theorem claim_C3_amended :
    (∀ (n y : Int) (m d : Nat), n ≠ 0 → n.natAbs < overflowThresholdNat →
      timeTOverflowNegMs ≤ n → n < timeTOverflowPosMs →
      civilFromDays (Int.fdiv n 86400000) = (y, m, d) → 1 ≤ y → y ≤ 9999 →
      adf_to_text (dateNodeTs (some (.int n))) = .ok (some (formatYmd y m d))) ∧
    (∀ (n y : Int) (m d : Nat), n ≠ 0 → n.natAbs < overflowThresholdNat →
      timeTOverflowNegMs ≤ n → n < timeTOverflowPosMs →
      civilFromDays (Int.fdiv n 86400000) = (y, m, d) → (y < 1 ∨ 9999 < y) →
      adf_to_text (dateNodeTs (some (.int n))) = .ok (some (toString n))) ∧
    (∀ n : Int, timeTOverflowPosMs ≤ n ∨ n < timeTOverflowNegMs →
      adf_to_text (dateNodeTs (some (.int n))) = .error .overflowError) ∧
    adf_to_text (dateNodeTs (some (.int 1582152559000))) = .ok (some "2020-02-19") ∧
    adf_to_text (dateNodeTs (some (.str "1582152559000"))) = .ok (some "2020-02-19") ∧
    adf_to_text (dateNodeTs (some (.int (-1)))) = .ok (some "1969-12-31") ∧
    adf_to_text (dateNodeTs (some (.int (10 ^ 22)))) = .error .overflowError ∧
    adf_to_text (dateNodeTs (some (.str "not-a-number"))) = .ok (some "not-a-number") ∧
    adf_to_text (dateNodeTs none) = .ok (some "") ∧
    adf_to_text (dateNodeTs (some (.str ""))) = .ok (some "") := by
  refine ⟨?_, ?_, ?_, by decide, by decide, by decide, by decide, by decide, rfl, rfl⟩
  · intro n y m d hn hov hneg hpos hcd h1 h2
    have hov' : ¬ overflowThresholdNat ≤ n.natAbs := Nat.not_le.mpr hov
    have ht' : ¬ (timeTOverflowPosMs ≤ n ∨ n < timeTOverflowNegMs) := by
      rintro (h | h)
      · exact absurd h (not_le.mpr hpos)
      · exact absurd h (not_lt.mpr hneg)
    simp [adf_to_text, dateNodeTs, tsTruthy, hn, pyIntOfTs, hov', ht', hcd, h1, h2]
  · intro n y m d hn hov hneg hpos hcd hy
    have hov' : ¬ overflowThresholdNat ≤ n.natAbs := Nat.not_le.mpr hov
    have ht' : ¬ (timeTOverflowPosMs ≤ n ∨ n < timeTOverflowNegMs) := by
      rintro (h | h)
      · exact absurd h (not_le.mpr hpos)
      · exact absurd h (not_lt.mpr hneg)
    have hy' : ¬ (1 ≤ y ∧ y ≤ 9999) := by omega
    simp [adf_to_text, dateNodeTs, tsTruthy, hn, pyIntOfTs, hov', ht', hcd, hy', pyStrOfTs]
  · intro n ht
    have hn : n ≠ 0 := by
      rcases ht with h | h
      · have : (0 : Int) < timeTOverflowPosMs := by decide
        omega
      · have : timeTOverflowNegMs < 0 := by decide
        omega
    have hcase : overflowThresholdNat ≤ n.natAbs ∨
        ¬ overflowThresholdNat ≤ n.natAbs := em _
    rcases hcase with hov | hov
    · simp [adf_to_text, dateNodeTs, tsTruthy, hn, pyIntOfTs, hov]
    · simp [adf_to_text, dateNodeTs, tsTruthy, hn, pyIntOfTs, hov, ht]

/-- C3 amended, witnessed: an in-range instant is formatted, an
out-of-datetime-range instant (year 10000) falls back to the raw value,
and an out-of-time_t instant raises. -/
theorem claim_C3_amended_witness :
    adf_to_text (dateNodeTs (some (.int 1582152559000))) = .ok (some (formatYmd 2020 2 19)) ∧
    adf_to_text (dateNodeTs (some (.int 253402300800000))) =
      .ok (some (toString (253402300800000 : Int))) ∧
    adf_to_text (dateNodeTs (some (.int (10 ^ 23)))) = .error .overflowError :=
  ⟨claim_C3_amended.1 1582152559000 2020 2 19 (by decide) (by decide) (by decide)
      (by decide) (by decide) (by decide) (by decide),
   claim_C3_amended.2.1 253402300800000 10000 1 1 (by decide) (by decide) (by decide)
      (by decide) (by decide) (Or.inr (by decide)),
   claim_C3_amended.2.2.1 (10 ^ 23) (Or.inl (by decide))⟩

/-- C6 is the stated design, but the code can raise: a `date` node whose
integer timestamp is large enough that `int(timestamp) / 1000` overflows
the float range raises `OverflowError`, which is missing from the
`except (ValueError, OSError, TypeError)` tuple and escapes to the
caller. -/
theorem claim_C6_date_overflow_raises :
    adf_to_text (dateNodeTs (some (.int (10 ^ 400)))) = .error .overflowError := by
  decide
/-- A run of single-line code-marked text nodes only extends the code
buffer, one buffered line per node, in order. -/
theorem processItems_code_run (ts parts buf : List String)
    (h : ∀ t ∈ ts, pyContains t '\n' = false) :
    processItems (ts.map codeTextNode) parts buf = processItems [] parts (buf ++ ts) := by
  induction ts generalizing buf with
  | nil => simp
  | cons t ts ih =>
    rw [List.map_cons, processItems_cons_code _ _ _ _ (has_code_mark_codeTextNode t),
        text_without_code_mark_codeTextNode, pySplitChar_of_not_contains t '\n' (h t (by simp)),
        ih _ (fun x hx => h x (by simp [hx])), List.append_assoc]
    rfl

/-- C1: the interleaving example renders as a fenced block of the first
two code lines, the plain run, then an inline span; and any whole
sequence of at least two consecutive single-line code-marked text nodes
renders as one fenced block of the lines joined by newline, in order. -/
theorem claim_C1_code_run_merging :
    adf_to_text (.list [codeTextNode "a", codeTextNode "b", plainTextNode " x ", codeTextNode "c"]) =
      .ok (some "```\na\nb\n```\n x \n`c`") ∧
    (∀ ts : List String, 2 ≤ ts.length → (∀ t ∈ ts, pyContains t '\n' = false) →
      adf_to_text (.list (ts.map codeTextNode)) =
        .ok (some ("```\n" ++ pyJoin "\n" ts ++ "\n```"))) := by
  refine ⟨by decide, ?_⟩
  intro ts hlen h
  rcases ts with _ | ⟨a, _ | ⟨b, bs⟩⟩
  · simp at hlen
  · simp at hlen
  · show processItems (List.map codeTextNode (a :: b :: bs)) [] [] = _
    rw [processItems_code_run _ _ _ h]
    simp [processItems, flush_code_buffer, pyJoin_single]

/-- C1, witnessed at the two-line run ["a", "b"]. -/
theorem claim_C1_witness :
    adf_to_text (.list (["a", "b"].map codeTextNode)) =
      .ok (some ("```\n" ++ pyJoin "\n" ["a", "b"] ++ "\n```")) :=
  claim_C1_code_run_merging.2 ["a", "b"] (by decide) (by decide)

/-- C9: in the sibling merger a non-code sibling converting to the empty
string is dropped exactly like an absent result (same continuation), so a
sequence whose every element is non-code and converts to empty or absent
yields absent, not the empty string. -/
theorem claim_C9_empty_results_dropped :
    (∀ (item : ADF) (rest : List ADF) (parts buf : List String),
      _has_code_mark item = false →
      (adf_to_text item = .ok (some "") ∨ adf_to_text item = .ok none) →
      processItems (item :: rest) parts buf =
        processItems rest (flush_code_buffer parts buf) []) ∧
    (∀ items : List ADF,
      (∀ i ∈ items, _has_code_mark i = false ∧
        (adf_to_text i = .ok (some "") ∨ adf_to_text i = .ok none)) →
      adf_to_text (.list items) = .ok none) := by
  have step : ∀ (item : ADF) (rest : List ADF) (parts buf : List String),
      _has_code_mark item = false →
      (adf_to_text item = .ok (some "") ∨ adf_to_text item = .ok none) →
      processItems (item :: rest) parts buf =
        processItems rest (flush_code_buffer parts buf) [] := by
    intro item rest parts buf hc hres
    rcases hres with h | h <;> simp [processItems, hc, h]
  refine ⟨step, ?_⟩
  have aux : ∀ items : List ADF,
      (∀ i ∈ items, _has_code_mark i = false ∧
        (adf_to_text i = .ok (some "") ∨ adf_to_text i = .ok none)) →
      processItems items [] [] = .ok none := by
    intro items
    induction items with
    | nil => intro _; rfl
    | cons i rest ih =>
      intro hall
      rw [step i rest [] [] (hall i (by simp)).1 (hall i (by simp)).2]
      exact ih (fun x hx => hall x (by simp [hx]))
  intro items hall
  cases items with
  | nil => rfl
  | cons i rest => exact aux _ hall

/-- C9, witnessed at a list of two empty no-mark text nodes. -/
theorem claim_C9_witness :
    adf_to_text (.list [plainTextNode "", plainTextNode ""]) = .ok none :=
  claim_C9_empty_results_dropped.2 [plainTextNode "", plainTextNode ""] (by decide)

/-- The node types given dedicated dispatch branches. -/
def recognizedTypes : List String :=
  ["text", "hardBreak", "mention", "emoji", "date", "status", "inlineCard", "codeBlock"]

/-- Dispatch for a node whose `type` is not recognized: the result is that
of converting the `content` list (absent content behaving as the empty
list, which converts to absent). -/
theorem adf_to_text_unknown (ty tx : Option String) (marks : Option (List Mark))
    (attrs : Option Attrs) (content : Option (List ADF))
    (h : ty ∉ recognizedTypes.map some) :
    adf_to_text (.node ty tx marks attrs content) = adf_to_text (.list (content.getD [])) := by
  simp only [recognizedTypes, List.map_cons, List.map_nil, List.mem_cons,
    List.not_mem_nil, or_false, not_or] at h
  obtain ⟨h1, h2, h3, h4, h5, h6, h7, h8⟩ := h
  rcases content with _ | ⟨_ | ⟨c, cs⟩⟩ <;>
  · simp only [adf_to_text]
    rw [if_neg h1, if_neg h2, if_neg h3, if_neg h4, if_neg h5, if_neg h6, if_neg h7, if_neg h8]
    rfl

/-- C5: a node of unrecognized type with present non-empty content
converts exactly as that content list does; with absent or empty content
the result is absent, and the empty node converts to absent. -/
theorem claim_C5_unknown_passthrough :
    (∀ (ty tx : Option String) (marks : Option (List Mark)) (attrs : Option Attrs)
       (c : ADF) (cs : List ADF), ty ∉ recognizedTypes.map some →
      adf_to_text (.node ty tx marks attrs (some (c :: cs))) = adf_to_text (.list (c :: cs))) ∧
    (∀ (ty tx : Option String) (marks : Option (List Mark)) (attrs : Option Attrs),
      ty ∉ recognizedTypes.map some →
      adf_to_text (.node ty tx marks attrs (some [])) = .ok none) ∧
    (∀ (ty tx : Option String) (marks : Option (List Mark)) (attrs : Option Attrs),
      ty ∉ recognizedTypes.map some →
      adf_to_text (.node ty tx marks attrs none) = .ok none) ∧
    adf_to_text (.node none none none none none) = .ok none := by
  refine ⟨?_, ?_, ?_, rfl⟩
  · intro ty tx marks attrs c cs h
    rw [adf_to_text_unknown _ _ _ _ _ h]
    rfl
  · intro ty tx marks attrs h
    rw [adf_to_text_unknown _ _ _ _ _ h]
    rfl
  · intro ty tx marks attrs h
    rw [adf_to_text_unknown _ _ _ _ _ h]
    rfl

/-- C5, witnessed at an `unknownNode`. -/
theorem claim_C5_witness :
    adf_to_text (.node (some "unknownNode") none none none (some [plainTextNode "nested text"])) =
      adf_to_text (.list [plainTextNode "nested text"]) ∧
    adf_to_text (.node (some "unknownNode") none none none none) = .ok none :=
  ⟨claim_C5_unknown_passthrough.1 (some "unknownNode") none none none _ _ (by decide),
   claim_C5_unknown_passthrough.2.2.1 (some "unknownNode") none none none (by decide)⟩

/-- The mark types `_apply_marks` recognizes. -/
def knownMarkTypes : List String :=
  ["code", "strong", "em", "strike", "underline", "link", "subsup"]

/-- C4: marks wrap the accumulated text left-to-right (first mark
innermost, so [strong, em] on "X" gives ***X***); each supported mark has
its stated wrapper; a link mark with empty or missing href, and any
unrecognized mark type, leave the text unchanged. -/
theorem claim_C4_mark_application :
    (∀ (t : String) (ms : List Mark) (m : Mark),
      _apply_marks t (ms ++ [m]) = _apply_one_mark (_apply_marks t ms) m) ∧
    adf_to_text (.node (some "text") (some "X") (some [strongMark, emMark]) none none) =
      .ok (some "***X***") ∧
    (∀ t, _apply_one_mark t strongMark = "**" ++ t ++ "**") ∧
    (∀ t, _apply_one_mark t emMark = "*" ++ t ++ "*") ∧
    (∀ t, _apply_one_mark t { type := some "strike" } = "~~" ++ t ++ "~~") ∧
    (∀ t, _apply_one_mark t { type := some "underline" } = "<u>" ++ t ++ "</u>") ∧
    (∀ t, _apply_one_mark t { type := some "subsup", attrs := some { type := some "sub" } } =
      "<sub>" ++ t ++ "</sub>") ∧
    (∀ t, _apply_one_mark t { type := some "subsup", attrs := some { type := some "sup" } } =
      "<sup>" ++ t ++ "</sup>") ∧
    (∀ t, _apply_one_mark t { type := some "link", attrs := some { href := some "" } } = t) ∧
    (∀ t, _apply_one_mark t { type := some "link", attrs := some MarkAttrs.empty } = t) ∧
    (∀ t, _apply_one_mark t { type := some "link", attrs := none } = t) ∧
    (∀ (t : String) (m : Mark), m.type ∉ knownMarkTypes.map some → _apply_one_mark t m = t) := by
  refine ⟨?_, by decide, fun t => rfl, fun t => rfl, fun t => rfl, fun t => rfl,
    fun t => rfl, fun t => rfl, fun t => rfl, fun t => rfl, fun t => rfl, ?_⟩
  · intro t ms m
    cases ms with
    | nil => rfl
    | cons x xs =>
      show List.foldl _apply_one_mark t ((x :: xs) ++ [m]) =
        _apply_one_mark (List.foldl _apply_one_mark t (x :: xs)) m
      rw [List.foldl_append]
      rfl
  · intro t m h
    simp only [knownMarkTypes, List.map_cons, List.map_nil, List.mem_cons,
      List.not_mem_nil, or_false, not_or] at h
    obtain ⟨h1, h2, h3, h4, h5, h6, h7⟩ := h
    simp [_apply_one_mark, h1, h2, h3, h4, h5, h6, h7]

/-- C4, witnessed at an unrecognized mark type. -/
theorem claim_C4_witness :
    _apply_one_mark "text" { type := some "unknownMark" } = "text" :=
  claim_C4_mark_application.2.2.2.2.2.2.2.2.2.2.2 "text" { type := some "unknownMark" } (by decide)
/-- Merger step for a non-code sibling, spelled out. -/
theorem processItems_cons_not_code (item : ADF) (rest : List ADF) (parts buf : List String)
    (h : _has_code_mark item = false) :
    processItems (item :: rest) parts buf =
      match adf_to_text item with
      | .error e => .error e
      | .ok (some t) =>
        if t ≠ "" then processItems rest (flush_code_buffer parts buf ++ [t]) []
        else processItems rest (flush_code_buffer parts buf) []
      | .ok none => processItems rest (flush_code_buffer parts buf) [] := by
  simp [processItems, h]

/-- The sibling merger's loop rendered as an explicit state machine: the
input list `items` (which the source only reads), the loop position
`idx`, the two locals the source mutates in place (`result_parts` via
`append`, `code_buffer` via `extend`/`clear`), and a raised-exception
register. -/
structure MergerState where
  items : List ADF
  idx : Nat
  result_parts : List String
  code_buffer : List String
  error : Option PyExc

/-- One iteration of the merger loop: a no-op once an exception was raised
or past the end of `items`; otherwise processes `items[idx]` exactly as
the loop body of `_process_content_list` does, updating only `idx`,
`result_parts` and `code_buffer`. -/
def mergerStep (s : MergerState) : MergerState :=
  match s.error with
  | some _ => s
  | none =>
    match s.items[s.idx]? with
    | none => s
    | some item =>
      if _has_code_mark item then
        { s with idx := s.idx + 1,
                 code_buffer :=
                   s.code_buffer ++ pySplitChar (_get_text_without_code_mark item) '\n' }
      else
        let parts := flush_code_buffer s.result_parts s.code_buffer
        match adf_to_text item with
        | .error e =>
          { s with idx := s.idx + 1, error := some e,
                   result_parts := parts, code_buffer := [] }
        | .ok (some t) =>
          if t ≠ "" then
            { s with idx := s.idx + 1, result_parts := parts ++ [t], code_buffer := [] }
          else
            { s with idx := s.idx + 1, result_parts := parts, code_buffer := [] }
        | .ok none =>
          { s with idx := s.idx + 1, result_parts := parts, code_buffer := [] }

/-- Run `n` iterations of the merger loop. -/
def mergerRun : Nat → MergerState → MergerState
  | 0, s => s
  | n + 1, s => mergerRun n (mergerStep s)

/-- The value the merger returns when read off a final state: the raised
exception if any, else the final flush followed by the newline join
(absent when no part was ever produced). -/
def mergerOutput (s : MergerState) : Except PyExc (Option String) :=
  match s.error with
  | some e => .error e
  | none =>
    match flush_code_buffer s.result_parts s.code_buffer with
    | [] => .ok none
    | p :: ps => .ok (some (pyJoin "\n" (p :: ps)))

theorem mergerStep_items (s : MergerState) : (mergerStep s).items = s.items := by
  unfold mergerStep
  repeat' split
  all_goals rfl

theorem mergerRun_items (n : Nat) (s : MergerState) : (mergerRun n s).items = s.items := by
  induction n generalizing s with
  | zero => rfl
  | succ n ih =>
    show (mergerRun n (mergerStep s)).items = s.items
    rw [ih (mergerStep s), mergerStep_items]

theorem mergerStep_of_error (s : MergerState) (e : PyExc) (h : s.error = some e) :
    mergerStep s = s := by
  simp [mergerStep, h]

theorem mergerRun_of_error (n : Nat) (s : MergerState) (e : PyExc) (h : s.error = some e) :
    mergerRun n s = s := by
  induction n with
  | zero => rfl
  | succ n ih =>
    show mergerRun n (mergerStep s) = s
    rw [mergerStep_of_error s e h]
    exact ih

/-- Running the machine over the suffix `rest` of the input computes the
same answer as the accumulator-passing rendering of the loop. -/
theorem merger_sim (rest : List ADF) : ∀ (pre : List ADF) (parts buf : List String),
    mergerOutput (mergerRun rest.length ⟨pre ++ rest, pre.length, parts, buf, none⟩) =
      processItems rest parts buf := by
  induction rest with
  | nil => intro pre parts buf; rfl
  | cons item rest ih =>
    intro pre parts buf
    show mergerOutput (mergerRun rest.length
      (mergerStep ⟨pre ++ item :: rest, pre.length, parts, buf, none⟩)) = _
    have hget : (pre ++ item :: rest)[pre.length]? = some item := by
      rw [List.getElem?_append_right (Nat.le_refl _)]
      simp
    have hsplit : pre ++ item :: rest = (pre ++ [item]) ++ rest := by simp
    have hlen : pre.length + 1 = (pre ++ [item]).length := by simp
    by_cases hc : _has_code_mark item = true
    · have hstep : mergerStep ⟨pre ++ item :: rest, pre.length, parts, buf, none⟩ =
          ⟨(pre ++ [item]) ++ rest, (pre ++ [item]).length, parts,
            buf ++ pySplitChar (_get_text_without_code_mark item) '\n', none⟩ := by
        simp only [mergerStep, hget, hc, if_true]
        rw [← hsplit, ← hlen]
      rw [hstep, ih, processItems_cons_code _ _ _ _ hc]
    · have hc' : _has_code_mark item = false := by
        exact Bool.not_eq_true _ ▸ eq_false_of_ne_true hc
      rcases hres : adf_to_text item with e | r
      · have hstep : mergerStep ⟨pre ++ item :: rest, pre.length, parts, buf, none⟩ =
            ⟨pre ++ item :: rest, pre.length + 1,
              flush_code_buffer parts buf, [], some e⟩ := by
          simp [mergerStep, hget, hc', hres]
        rw [hstep, mergerRun_of_error _ _ e rfl,
            processItems_cons_not_code _ _ _ _ hc', hres]
        rfl
      · rcases r with _ | t
        · have hstep : mergerStep ⟨pre ++ item :: rest, pre.length, parts, buf, none⟩ =
              ⟨(pre ++ [item]) ++ rest, (pre ++ [item]).length,
                flush_code_buffer parts buf, [], none⟩ := by
            simp only [mergerStep, hget, hc', Bool.false_eq_true, if_false, hres]
            rw [← hsplit, ← hlen]
          rw [hstep, ih, processItems_cons_not_code _ _ _ _ hc', hres]
        · by_cases ht : t = ""
          · have hstep : mergerStep ⟨pre ++ item :: rest, pre.length, parts, buf, none⟩ =
                ⟨(pre ++ [item]) ++ rest, (pre ++ [item]).length,
                  flush_code_buffer parts buf, [], none⟩ := by
              simp only [mergerStep, hget, hc', Bool.false_eq_true, if_false, hres, ht]
              simp only [ne_eq, not_true_eq_false, if_false]
              rw [← hsplit, ← hlen]
            rw [hstep, ih, processItems_cons_not_code _ _ _ _ hc', hres]
            simp [ht]
          · have hstep : mergerStep ⟨pre ++ item :: rest, pre.length, parts, buf, none⟩ =
                ⟨(pre ++ [item]) ++ rest, (pre ++ [item]).length,
                  flush_code_buffer parts buf ++ [t], [], none⟩ := by
              simp only [mergerStep, hget, hc', Bool.false_eq_true, if_false, hres]
              simp only [ne_eq, ht, not_false_eq_true, if_true]
              rw [← hsplit, ← hlen]
            rw [hstep, ih, processItems_cons_not_code _ _ _ _ hc', hres]
            simp [ht]

/-- C8: the converter never mutates its input and keeps no state across
calls: every iteration of the merger loop (the only place the source
mutates anything) leaves the input `items` list unchanged, mutating only
the per-call locals, and the loop's final state reproduces exactly the
pure accumulator-passing result, so the conversion is a function of the
input alone. -/
theorem claim_C8_no_input_mutation :
    (∀ (s : MergerState) (n : Nat), (mergerRun n s).items = s.items) ∧
    (∀ (items : List ADF) (parts buf : List String),
      processItems items parts buf =
        mergerOutput (mergerRun items.length ⟨items, 0, parts, buf, none⟩)) := by
  refine ⟨fun s n => mergerRun_items n s, fun items parts buf => ?_⟩
  exact (merger_sim items [] parts buf).symm
